import Mathlib

/-!
# Verification of the copy-trading pipeline

Shallow embedding, in Lean 4, of the core of the copy-trading bot:
the idempotency ledger and mutex-serialized decision stage
(`src/webhook/handler.ts`, current revision), the position store
(`src/db/repo.ts`), the position state machine (`src/trade/position.ts`),
the risk-engine guards (`src/risk/engine.ts`), the executor's
store side effects (`src/trade/jupiter.ts`), the circuit breaker
(`src/guard/circuitBreaker.ts`) and the webhook rate limiter / responder
(`src/index.ts`).

Conventions of the embedding:
* JavaScript `number` values (SOL amounts, percentages, rates) are
  modelled as `ℚ` (exact arithmetic in place of IEEE doubles);
  `bigint` values are modelled as `ℤ`; timestamps (`Date.now()`) are
  explicit `ℤ` parameters in milliseconds.
* Databases become explicit functional state: the processed-events
  table is a `List String`, the positions table an association list,
  and so on.  Every store operation is a function from state to state.
* Network calls and the wall clock are oracles: a quote is an
  `Option` parameter, the positions observed by a polling loop are a
  trace `ℕ → Option Position`, and each 500 ms sleep is accounted as
  exactly 500 ms.
* The decision/execution stage runs under a FIFO promise-chain mutex
  (`withMutex` in the handler), so concurrent submissions linearize to
  some arrival order; the pipeline is therefore modelled as a fold of
  the serialized stage body over a list of submissions.
-/

namespace CopyBot

/-! ## Basic data model -/

/-- Swap direction of a descriptor or trade plan. -/
inductive Direction
  | BUY
  | SELL
  deriving DecidableEq, Repr

/-- Position status column (`positions.status`): `CONFIRMED` or `SENT`. -/
inductive PosStatus
  | CONFIRMED
  | SENT
  deriving DecidableEq, Repr

/-- One row of the `positions` table (`PositionRow` in `src/db/repo.ts`):
raw token balance (`amount_raw`, a bigint stored as text), token decimals
and status.  The `updated_at` column is not needed by the claims settled
here and is omitted. -/
structure Position where
  amountRaw : ℤ
  decimals : ℕ
  status : PosStatus
  deriving DecidableEq, Repr

/-- The `positions` table: at most one row per mint, modelled as an
association list keyed by mint. -/
abbrev Positions := List (String × Position)

/-- `getPosition` from `src/db/repo.ts`: `SELECT * FROM positions WHERE
mint = ?`, or `null`. -/
def getPosition (ps : Positions) (mint : String) : Option Position :=
  (ps.find? (fun r => r.1 = mint)).map (·.2)

/-- `upsertPosition` from `src/db/repo.ts`: INSERT OR UPDATE of the full
row; the inserted/updated status is always the literal `CONFIRMED`
(`VALUES (..., 'CONFIRMED') ... status = excluded.status`). -/
def upsertPosition (ps : Positions) (mint : String) (amountRaw : ℤ)
    (decimals : ℕ) : Positions :=
  if ps.any (fun r => r.1 = mint) then
    ps.map (fun r =>
      if r.1 = mint then (mint, ⟨amountRaw, decimals, PosStatus.CONFIRMED⟩)
      else r)
  else
    ps ++ [(mint, ⟨amountRaw, decimals, PosStatus.CONFIRMED⟩)]

/-- `setPendingPosition` from `src/db/repo.ts` (helper "A1"): reads the
existing `amount_raw`, adds the pending amount, and writes the new total
with status `SENT`.  NOTE: this function has no call site anywhere in the
repository. -/
def setPendingPosition (ps : Positions) (mint : String) (addAmountRaw : ℤ)
    (decimals : ℕ) : Positions :=
  let existingAmt := ((getPosition ps mint).map (·.amountRaw)).getD 0
  let newTotal := existingAmt + addAmountRaw
  if ps.any (fun r => r.1 = mint) then
    ps.map (fun r =>
      if r.1 = mint then (mint, ⟨newTotal, decimals, PosStatus.SENT⟩) else r)
  else
    ps ++ [(mint, ⟨newTotal, decimals, PosStatus.SENT⟩)]

/-- `confirmPosition` from `src/db/repo.ts`: sets status to `CONFIRMED`.
NOTE: no call site anywhere in the repository. -/
def confirmPosition (ps : Positions) (mint : String) : Positions :=
  ps.map (fun r =>
    if r.1 = mint then (r.1, { r.2 with status := PosStatus.CONFIRMED }) else r)

/-- `deletePosition` from `src/db/repo.ts`. -/
def deletePosition (ps : Positions) (mint : String) : Positions :=
  ps.filter (fun r => ¬ r.1 = mint)

/-- `failPosition` from `src/db/repo.ts`: rolls a pending amount back;
deletes the row when the remainder is ≤ 0, else writes the reduced amount
with status `CONFIRMED`.  Called only by the stale-SENT reaper. -/
def failPosition (ps : Positions) (mint : String) (pendingAmountRaw : ℤ) :
    Positions :=
  match getPosition ps mint with
  | none => ps
  | some existing =>
    let remaining := existing.amountRaw - pendingAmountRaw
    if remaining ≤ 0 then deletePosition ps mint
    else
      ps.map (fun r =>
        if r.1 = mint then
          (r.1, ⟨remaining, existing.decimals, PosStatus.CONFIRMED⟩)
        else r)

/-- `handleBuy` from `src/trade/position.ts`: after a successful BUY
(no mode distinction — the same path runs in live and dry-run mode),
add the quoted `outAmount` to the existing balance and upsert the row.
Because `upsertPosition` always writes status `CONFIRMED`, the resulting
row is `CONFIRMED` in every mode. -/
def handleBuy (ps : Positions) (mint : String) (tokenDecimals : ℕ)
    (quoteOutAmount : ℤ) : Positions :=
  let existing := ((getPosition ps mint).map (·.amountRaw)).getD 0
  let newTotal := existing + quoteOutAmount
  upsertPosition ps mint newTotal tokenDecimals

/-- `handleSell` from `src/trade/position.ts`: subtract the sold amount;
delete the row when the remainder is ≤ 0. -/
def handleSell (ps : Positions) (mint : String) (tokensSold : ℤ) : Positions :=
  match getPosition ps mint with
  | none => ps
  | some current =>
    let remaining := current.amountRaw - tokensSold
    if remaining ≤ 0 then deletePosition ps mint
    else upsertPosition ps mint remaining current.decimals

/-- `updatePosition` from `src/trade/position.ts`: dispatch on the plan
direction.  For a BUY the quote `outAmount` is added; for a SELL the plan
`amountRaw` is subtracted. -/
def updatePositionModel (ps : Positions) (dir : Direction) (mint : String)
    (amountRaw : ℤ) (tokenDecimals : ℕ) (quoteOutAmount : ℤ) : Positions :=
  match dir with
  | Direction.BUY => handleBuy ps mint tokenDecimals quoteOutAmount
  | Direction.SELL => handleSell ps mint amountRaw

/-! ## Idempotency ledger (`processed_events`) -/

/-- `isEventProcessed` from `src/db/repo.ts`: membership probe of the
`processed_events` table. -/
def isEventProcessed (ledger : List String) (sig : String) : Bool :=
  ledger.contains sig

/-- `markEventProcessed` from `src/db/repo.ts`: `INSERT OR IGNORE` of the
signature.  The SQL statement returns no value; the function is a pure
state update. -/
def markEventProcessed (ledger : List String) (sig : String) : List String :=
  if ledger.contains sig then ledger else sig :: ledger

/-- The store's idempotency primitive as it is actually exercised by the
serialized stage (`_handleParsedSwapInner` in the handler:
`if (isEventProcessed(sig)) return; markEventProcessed(sig);`): probe the
ledger, then insert-or-ignore.  The boolean component is `true` exactly
when the signature was admitted (not seen before). -/
def checkAndInsertSignature (ledger : List String) (sig : String) :
    Bool × List String :=
  (!isEventProcessed ledger sig, markEventProcessed ledger sig)

/-- Run a sequence of check-and-insert calls, keeping the ledger. -/
def processSignatures (ledger : List String) (sigs : List String) :
    List String :=
  sigs.foldl (fun ld s => (checkAndInsertSignature ld s).2) ledger

/-! ## Decision/execution stage (`_handleParsedSwapInner`) and the
pipeline serializer

`handleParsedSwap` wraps the stage body `_handleParsedSwapInner` in
`withMutex`, a FIFO promise chain; concurrent producers therefore
linearize to a serial arrival order, and the pipeline is modelled as a
fold of the stage body over the list of submissions in that order.
Network-dependent results inside the stage (risk evaluation and
execution) are an oracle recorded on each submission. -/

/-- Stable reject reasons produced by the risk engine
(`src/risk/engine.ts`); the free-text reasons (trade size, budget,
cooldown, balance, price impact, ...) are represented by their tags.  -/
inductive Reason
  | paused
  | circuitBreakerOpen
  | unsafeParse
  | maxOpenPositions
  | tradeSizeBelowMinimum
  | budgetExhausted
  | cooldown
  | feeOverhead
  | insufficientBalance
  | tokenUnsafe
  | unroutableToken
  | priceImpact
  | priceDriftTooHigh
  | noPosition
  | positionNotConfirmed
  deriving DecidableEq, Repr

/-- Oracle for what the serialized stage body observes for one
submission: the combined result of `evaluateRisk` and (when the risk
result is EXECUTE) `executeSwap`. -/
inductive StageEffect
  | rejected (reason : Reason)
  | copied (quoteOutAmount : ℤ) (planAmountRaw : ℤ) (tokenDecimals : ℕ)
  | failed
  deriving DecidableEq, Repr

/-- `outcome` column of a `trade_pipeline_metrics` row. -/
inductive MetricOutcome
  | COPIED
  | REJECTED
  | FAILED
  | CIRCUIT_BREAKER
  deriving DecidableEq, Repr

/-- Outcome tags fed to the circuit breaker (`recordOutcome`). -/
inductive BreakerOutcome
  | COPIED
  | FAILED
  | REJECTED
  | NO_POSITION
  deriving DecidableEq, Repr

/-- The fields of a `trade_pipeline_metrics` row that the claims are
about (signature, direction, outcome, sell-buffer instrumentation). -/
structure MetricRow where
  signature : String
  direction : Direction
  outcome : MetricOutcome
  sellBuffered : Bool
  sellBufferMs : ℕ
  deriving DecidableEq, Repr

/-- One submission to the serialized stage: the parsed descriptor fields
the stage body reads, the stage-effect oracle, and the sell-buffer
instrumentation computed before entering the mutex. -/
structure Submission where
  sig : String
  direction : Direction
  mint : String
  effect : StageEffect
  sellBuffered : Bool
  sellBufferMs : ℕ
  deriving DecidableEq, Repr

/-- The store/in-memory state visible to the stage body: the idempotency
ledger (`processed_events`), the pending-buy registry, the positions
table, the `source_trades` signatures, the pipeline-metric rows and the
outcome feed to the circuit breaker. -/
structure PipeState where
  ledger : List String
  pendingBuys : List String
  positions : Positions
  sourceTrades : List String
  metrics : List MetricRow
  breakerFeed : List BreakerOutcome
  /-- Audit log of the signatures whose stage run invoked
  `updatePosition` (one entry per invocation). -/
  posMutations : List String
  deriving DecidableEq, Repr

/-- Metric outcome written by the stage body for a given stage effect
(`outcome: riskResult.reason === 'CIRCUIT_BREAKER' ? 'CIRCUIT_BREAKER' :
'REJECTED'` for rejects, `'COPIED'` / `'FAILED'` otherwise). -/
def metricOutcomeOf : StageEffect → MetricOutcome
  | StageEffect.rejected r =>
    if r = Reason.circuitBreakerOpen then MetricOutcome.CIRCUIT_BREAKER
    else MetricOutcome.REJECTED
  | StageEffect.copied _ _ _ => MetricOutcome.COPIED
  | StageEffect.failed => MetricOutcome.FAILED

/-- Breaker outcome recorded by the stage body
(`recordOutcome(isNoPos ? 'NO_POSITION' : 'REJECTED', ...)` on reject,
`COPIED` / `FAILED` otherwise). -/
def breakerOutcomeOf : StageEffect → BreakerOutcome
  | StageEffect.rejected r =>
    if r = Reason.noPosition then BreakerOutcome.NO_POSITION
    else BreakerOutcome.REJECTED
  | StageEffect.copied _ _ _ => BreakerOutcome.COPIED
  | StageEffect.failed => BreakerOutcome.FAILED

/-- `_handleParsedSwapInner` (handler, current revision): inside the
mutex, return immediately when the signature is already in the ledger;
otherwise mark it processed, record the source trade, then — following
the stage-effect oracle — record the metric row and breaker outcome and,
on success, mutate the position; finally (only on the non-duplicate
path, since the early return precedes the `try`) clear the pending-buy
flag when the direction was BUY. -/
def runInner (st : PipeState) (sub : Submission) : PipeState :=
  if st.ledger.contains sub.sig then st
  else
    let st1 : PipeState :=
      { st with
        ledger := markEventProcessed st.ledger sub.sig
        sourceTrades := st.sourceTrades ++ [sub.sig] }
    let st2 : PipeState :=
      match sub.effect with
      | StageEffect.rejected _ =>
        { st1 with
          metrics := st1.metrics ++
            [⟨sub.sig, sub.direction, metricOutcomeOf sub.effect,
              sub.sellBuffered, sub.sellBufferMs⟩]
          breakerFeed := st1.breakerFeed ++ [breakerOutcomeOf sub.effect] }
      | StageEffect.copied quoteOut amountRaw decimals =>
        { st1 with
          positions := updatePositionModel st1.positions sub.direction
            sub.mint amountRaw decimals quoteOut
          posMutations := st1.posMutations ++ [sub.sig]
          metrics := st1.metrics ++
            [⟨sub.sig, sub.direction, MetricOutcome.COPIED,
              sub.sellBuffered, sub.sellBufferMs⟩]
          breakerFeed := st1.breakerFeed ++ [BreakerOutcome.COPIED] }
      | StageEffect.failed =>
        { st1 with
          metrics := st1.metrics ++
            [⟨sub.sig, sub.direction, MetricOutcome.FAILED,
              sub.sellBuffered, sub.sellBufferMs⟩]
          breakerFeed := st1.breakerFeed ++ [BreakerOutcome.FAILED] }
    if sub.direction = Direction.BUY then
      { st2 with pendingBuys := st2.pendingBuys.erase sub.mint }
    else st2

/-- The serialized pipeline: fold of the stage body over the arrival
order of submissions (the linearization enforced by `withMutex`). -/
def runPipeline (st : PipeState) (subs : List Submission) : PipeState :=
  subs.foldl runInner st

/-- Number of pipeline-metric rows recorded for a signature. -/
def metricCountFor (st : PipeState) (sig : String) : ℕ :=
  (st.metrics.filter (fun m => m.signature = sig)).length

/-- Number of `source_trades` rows recorded for a signature. -/
def tradeCountFor (st : PipeState) (sig : String) : ℕ :=
  (st.sourceTrades.filter (fun s => s = sig)).length

/-- Whether the stage effect of a submission mutates the position table
(`updatePosition` runs only on a successful execution). -/
def mutatesPosition : StageEffect → Bool
  | StageEffect.copied _ _ _ => true
  | _ => false

/-- Number of position-mutation invocations recorded for a signature. -/
def mutationCountFor (st : PipeState) (sig : String) : ℕ :=
  (st.posMutations.filter (fun s => s = sig)).length

/-! ## Sell-before-buy buffering (`handleParsedSwap`, before the mutex) -/

/-- What one iteration of the sell-buffer loop observes after its 500 ms
sleep: the `getPosition` result (as the raw amount when a row exists) and
the pending-buy flag for the mint.  The store evolves concurrently while
the submitter sleeps, so the observations are a trace indexed by
iteration. -/
structure BufferObs where
  pos : Option ℤ
  pending : Bool

/-- The break condition of iteration `i` of the sell-buffer loop: a
position with positive raw balance appeared, or the pending-buy flag
cleared. -/
def bufferExit (o : BufferObs) : Bool :=
  (match o.pos with
   | some a => 0 < a
   | none => false) ||
  !o.pending

/-- The sell-buffer loop (`for (let i = 0; i < 8; i++) { await
sleepMs(500); ... }`): returns the number of 500 ms sleeps performed.
`i` counts completed iterations, `fuel` the remaining ones. -/
def sellBufferAux (obs : ℕ → BufferObs) : ℕ → ℕ → ℕ
  | 0, i => i
  | fuel + 1, i =>
    if bufferExit (obs i) then i + 1
    else sellBufferAux obs fuel (i + 1)

/-- Total number of 500 ms sleeps of the sell-buffer loop (at most 8). -/
def sellBufferSleeps (obs : ℕ → BufferObs) : ℕ :=
  sellBufferAux obs 8 0

/-- A `getPosition` result that the buffer-entry check treats as "no
position": row absent or zero raw balance
(`!pos || BigInt(pos.amount_raw) === 0n`). -/
def noLivePosition : Option Position → Bool
  | none => true
  | some p => p.amountRaw = 0

/-- `handleParsedSwap` (handler, current revision): for a SELL whose mint
has a pending BUY and no (or zero-balance) position, run the sell-buffer
loop outside the mutex — each sleep accounted as exactly 500 ms — then
submit to the serialized stage with the measured buffer delay. -/
def handleParsedSwapModel (st : PipeState) (dir : Direction) (mint : String)
    (sig : String) (obs : ℕ → BufferObs) (effect : StageEffect) : PipeState :=
  let buffered :=
    if dir = Direction.SELL ∧ st.pendingBuys.contains mint then
      noLivePosition (getPosition st.positions mint)
    else false
  let ms := if buffered then 500 * sellBufferSleeps obs else 0
  runInner st ⟨sig, dir, mint, effect, buffered, ms⟩

/-! ## Risk engine: adaptive fee guard (`src/risk/engine.ts`) -/

/-- `BASE_TX_FEE_LAMPORTS` in `src/risk/engine.ts`. -/
def BASE_TX_FEE_LAMPORTS : ℕ := 5000

/-- `ATA_CREATION_LAMPORTS` in `src/risk/engine.ts`. -/
def ATA_CREATION_LAMPORTS : ℕ := 2039280

/-- `lamportsToSol` from `src/config.ts`: `Number(lamports) / 1e9`. -/
def lamportsToSol (lamports : ℤ) : ℚ := (lamports : ℚ) / 1000000000

/-- `estimateFeeSol` from `src/risk/engine.ts`: base transaction fee plus
priority fee, plus the ATA-creation rent when the token is new. -/
def estimateFeeSol (priorityFeeLamports : ℕ) (isNewToken : Bool) : ℚ :=
  let fee : ℕ := BASE_TX_FEE_LAMPORTS + priorityFeeLamports +
    (if isNewToken then ATA_CREATION_LAMPORTS else 0)
  lamportsToSol (fee : ℤ)

/-- `getAdaptiveFeePct` from `src/risk/engine.ts`: the base maximum fee
percent for trades of at least 0.5 SOL, twice it from 0.1 SOL, three
times it below. -/
def getAdaptiveFeePct (baseMaxPct tradeSol : ℚ) : ℚ :=
  if 1/2 ≤ tradeSol then baseMaxPct
  else if 1/10 ≤ tradeSol then baseMaxPct * 2
  else baseMaxPct * 3

/-- Result of the fee guard of `evaluateBuy`: the reject decision and the
two quantities it compares. -/
structure FeeGuardResult where
  rejected : Bool
  feePct : ℚ
  effectiveMaxFeePct : ℚ
  deriving DecidableEq, Repr

/-- The fee-guard step of `evaluateBuy` (`src/risk/engine.ts`):
`isNewToken = !getPosition(mint)`, the estimated fee as a percent of the
proposed spend, compared against the adaptive threshold; reject when
`feePct > effectiveMaxFeePct`. -/
def buyFeeGuard (maxFeePct : ℚ) (priorityFeeLamports : ℕ)
    (position : Option Position) (mySol : ℚ) : FeeGuardResult :=
  let isNewToken := position.isNone
  let estFee := estimateFeeSol priorityFeeLamports isNewToken
  let feePct := estFee / mySol * 100
  let effectiveMaxFeePct := getAdaptiveFeePct maxFeePct mySol
  ⟨decide (effectiveMaxFeePct < feePct), feePct, effectiveMaxFeePct⟩

/-! ## Risk engine: price-drift guard -/

/-- `computePriceDrift` from `src/risk/engine.ts`: null when the source
token amount is `0n`, the quote out amount is `0n`, either SOL amount is
≤ 0, or the computed source price is ≤ 0; otherwise
`(priceQuote / priceSource − 1) × 100` at identical decimals. -/
def computePriceDrift (sourceSolAmount : ℚ) (sourceTokenAmount : ℤ)
    (botSolAmount : ℚ) (quoteOutAmount : ℤ) (decimals : ℕ) : Option ℚ :=
  if sourceTokenAmount = 0 then none
  else if quoteOutAmount = 0 then none
  else if sourceSolAmount ≤ 0 ∨ botSolAmount ≤ 0 then none
  else
    let scale : ℚ := 10 ^ decimals
    let priceSource := sourceSolAmount / ((sourceTokenAmount : ℚ) / scale)
    let priceQuote := botSolAmount / ((quoteOutAmount : ℚ) / scale)
    if priceSource ≤ 0 then none
    else some ((priceQuote / priceSource - 1) * 100)

/-- Outcome of the price-drift guard inside `evaluateBuy`: either the BUY
is rejected (`PRICE_DRIFT_TOO_HIGH`, drift recorded in the result) or it
proceeds with the computed drift (if any) recorded. -/
inductive DriftGuardResult
  | reject (priceDriftPct : ℚ)
  | pass (priceDriftPct : Option ℚ)
  deriving DecidableEq, Repr

/-- The price-drift guard of `evaluateBuy` (`src/risk/engine.ts`):
skipped (drift null, no rejection) when the descriptor is unsafe-parse
and the disable flag is set; otherwise reject when the configured
`MAX_PRICE_DRIFT_PCT` is positive and the drift exceeds
`MAX_PRICE_DRIFT_PCT * 100`. -/
def driftGuardStep (unsafeParse disableOnUnsafe : Bool)
    (maxPriceDriftPct : ℚ) (sourceSolAmount : ℚ) (sourceTokenAmount : ℤ)
    (botSolAmount : ℚ) (quoteOutAmount : ℤ) (decimals : ℕ) :
    DriftGuardResult :=
  let skipDriftGuard := unsafeParse && disableOnUnsafe
  if skipDriftGuard then DriftGuardResult.pass none
  else
    match computePriceDrift sourceSolAmount sourceTokenAmount botSolAmount
      quoteOutAmount decimals with
    | none => DriftGuardResult.pass none
    | some d =>
      if 0 < maxPriceDriftPct ∧ maxPriceDriftPct * 100 < d then
        DriftGuardResult.reject d
      else DriftGuardResult.pass (some d)

/-! ## Risk engine: BUY cooldown gate and SELL pipeline -/

/-- The cooldown gate of `evaluateBuy` (`src/risk/engine.ts`): reject the
BUY when the token's last trade is younger than `COOLDOWN_SECONDS_PER_
TOKEN` (`elapsed = (Date.now() - lastTrade) / 1000`); no gate when the
token has never traded. -/
def buyCooldownGate (cooldownSeconds : ℚ) (lastTradeAt : Option ℤ)
    (now : ℤ) : Bool :=
  match lastTradeAt with
  | none => false
  | some t => decide ((((now - t : ℤ)) : ℚ) / 1000 < cooldownSeconds)

/-- `maxPolls` of the sell-on-SENT wait in `evaluateSell`:
`Math.max(1, Math.ceil(timeoutSeconds * 1000 / 500))`. -/
def maxSentPolls (timeoutSeconds : ℚ) : ℕ :=
  max 1 (Int.toNat ⌈timeoutSeconds * 1000 / 500⌉)

/-- The sell-on-SENT polling loop of `evaluateSell`: after each 500 ms
sleep re-read the position (trace `obs`); stop `confirmed` on a
`CONFIRMED` status, stop unconfirmed when the row disappeared (rolled
back), run out after `maxPolls` sleeps.  Returns the confirmed flag and
the number of sleeps performed. -/
def sentWaitAux (obs : ℕ → Option Position) : ℕ → ℕ → Bool × ℕ
  | 0, i => (false, i)
  | fuel + 1, i =>
    match obs i with
    | none => (false, i + 1)
    | some p =>
      if p.status = PosStatus.CONFIRMED then (true, i + 1)
      else sentWaitAux obs fuel (i + 1)

/-- The full sell-on-SENT wait: poll up to `maxSentPolls` times. -/
def sentWait (obs : ℕ → Option Position) (timeoutSeconds : ℚ) : Bool × ℕ :=
  sentWaitAux obs (maxSentPolls timeoutSeconds) 0

/-- `bigIntMulFraction` from `src/risk/engine.ts`:
`value * BigInt(Math.round(fraction * 1e6)) / 1e6n` (bigint division
truncates toward zero). -/
def bigIntMulFraction (value : ℤ) (fraction : ℚ) : ℤ :=
  Int.tdiv (value * round (fraction * 1000000)) 1000000

/-- Decision of the SELL pipeline: reject with a reason, or execute a
plan for `amountRaw` raw tokens.  Both carry the milliseconds waited by
the sell-on-SENT gate (`sellOnSentWaitMs` of the `RiskResult`). -/
inductive SellDecision
  | reject (reason : Reason) (sellOnSentWaitMs : ℕ)
  | execute (amountRaw : ℤ) (sellOnSentWaitMs : ℕ)
  deriving DecidableEq, Repr

/-- The `sellOnSentWaitMs` reported by a SELL decision. -/
def sellWaitMs : SellDecision → ℕ
  | SellDecision.reject _ ms => ms
  | SellDecision.execute _ ms => ms

/-- `evaluateSell` from `src/risk/engine.ts` (current revision) with its
oracles made explicit: `pos0` is the initial `getPosition`, `obs` the
positions observed by the sell-on-SENT polling loop, `reread` the
re-read after a positive wait, `fraction` the estimated source sell
fraction (null when it cannot be determined), `quote` the Jupiter quote
after the built-in retry (null = unroutable).  Each poll sleep is
accounted as exactly 500 ms. -/
def evaluateSellModel (allowSellOnSent : Bool) (timeoutSeconds : ℚ)
    (pos0 : Option Position) (obs : ℕ → Option Position)
    (reread : Option Position) (fraction : Option ℚ) (quote : Option ℤ) :
    SellDecision :=
  match pos0 with
  | none => SellDecision.reject Reason.noPosition 0
  | some initialPosition =>
    if initialPosition.amountRaw = 0 then SellDecision.reject Reason.noPosition 0
    else
      let gate : Option (Bool × ℕ) :=
        if initialPosition.status = PosStatus.SENT ∧ allowSellOnSent = false
        then some (sentWait obs timeoutSeconds) else none
      match gate with
      | some (false, k) =>
        SellDecision.reject Reason.positionNotConfirmed (500 * k)
      | some (true, k) => sellAfterWait initialPosition (500 * k) reread
          fraction quote
      | none => sellAfterWait initialPosition 0 reread fraction quote
where
  /-- The tail of `evaluateSell` after the sell-on-SENT gate: re-read the
  position when a wait happened, compute the proportional sell size,
  clamp it, and quote. -/
  sellAfterWait (initialPosition : Position) (waitMs : ℕ)
      (reread : Option Position) (fraction : Option ℚ)
      (quote : Option ℤ) : SellDecision :=
    let position := if 0 < waitMs then reread.getD initialPosition
      else initialPosition
    if position.amountRaw = 0 then SellDecision.reject Reason.noPosition waitMs
    else
      let myBalance := position.amountRaw
      let proposed := match fraction with
        | some f => bigIntMulFraction myBalance f
        | none => myBalance
      let clamped := min proposed myBalance
      let myTokenToSell := if clamped ≤ 0 then myBalance else clamped
      match quote with
      | none => SellDecision.reject Reason.unroutableToken waitMs
      | some _ => SellDecision.execute myTokenToSell waitMs

/-! ## Executor store effects (`src/trade/jupiter.ts`) -/

/-- One `virtual_trades` row (the columns the claims need). -/
structure VirtualTrade where
  direction : Direction
  mint : String
  solAmount : ℚ
  tokenAmount : ℤ
  tokenPrice : ℚ
  deriving DecidableEq, Repr

/-- The store tables touched by the executor on a successful trade:
today's budget row, the token cooldowns, the virtual-trade log and the
virtual cash.  (The `virtual_portfolio` upsert performed by
`recordVirtualTrade` is not needed by the claims settled here and is
elided.) -/
structure TradeStores where
  dailySpent : ℚ
  cooldowns : List (String × ℤ)
  virtualTrades : List VirtualTrade
  cashSol : ℚ
  deriving DecidableEq, Repr

/-- `updateCooldown` from `src/db/repo.ts`: upsert of
`token_cooldowns.last_trade_at = datetime('now')`. -/
def updateCooldown (cds : List (String × ℤ)) (mint : String) (now : ℤ) :
    List (String × ℤ) :=
  if cds.any (fun r => r.1 = mint) then
    cds.map (fun r => if r.1 = mint then (mint, now) else r)
  else cds ++ [(mint, now)]

/-- `getLastTradeAt` from `src/db/repo.ts`. -/
def getLastTradeAt (cds : List (String × ℤ)) (mint : String) : Option ℤ :=
  (cds.find? (fun r => r.1 = mint)).map (·.2)

/-- `addDailySpent` from `src/db/repo.ts`, restricted to the current day
row. -/
def addDailySpent (st : TradeStores) (sol : ℚ) : TradeStores :=
  { st with dailySpent := st.dailySpent + sol }

/-- The store effects of the LIVE success path of `executeSwap`
(`src/trade/jupiter.ts`): after confirmation,
`if (plan.direction === 'BUY') addDailySpent(...); updateCooldown(mint)`
— the cooldown is updated for SELLs as well as BUYs. -/
def executeSwapLiveSuccess (dir : Direction) (mint : String)
    (amountRaw : ℤ) (now : ℤ) (st : TradeStores) : TradeStores :=
  let st := if dir = Direction.BUY then
    addDailySpent st (lamportsToSol amountRaw) else st
  { st with cooldowns := updateCooldown st.cooldowns mint now }

/-- `recordVirtualTrade` from `src/db/repo.ts` (trade log and cash; the
portfolio upsert is elided): a BUY debits cash by `solAmount`, a SELL
credits it. -/
def recordVirtualTradeModel (st : TradeStores) (dir : Direction)
    (mint : String) (solAmount : ℚ) (tokenAmount : ℤ) (tokenPrice : ℚ) :
    TradeStores :=
  let st := { st with
    virtualTrades := st.virtualTrades ++
      [(⟨dir, mint, solAmount, tokenAmount, tokenPrice⟩ : VirtualTrade)] }
  if dir = Direction.BUY then { st with cashSol := st.cashSol - solAmount }
  else { st with cashSol := st.cashSol + solAmount }

/-- `recordDryRunTrade` from `src/trade/jupiter.ts`: record the virtual
trade (fee added to a BUY's cost, deducted — floored at 0 — from a
SELL's proceeds), then `if BUY addDailySpent; updateCooldown(mint)` —
again the cooldown is updated for SELLs as well as BUYs.
`(Number(x) || 1)` in the price formula becomes `if x = 0 then 1`. -/
def recordDryRunTradeModel (dir : Direction) (mint : String)
    (amountRaw : ℤ) (quoteOutAmount : ℤ) (txFee : ℚ) (now : ℤ)
    (st : TradeStores) : TradeStores :=
  let solVal : ℚ := match dir with
    | Direction.BUY => lamportsToSol amountRaw + txFee
    | Direction.SELL => max (lamportsToSol quoteOutAmount - txFee) 0
  let tokenVal : ℤ := match dir with
    | Direction.BUY => quoteOutAmount
    | Direction.SELL => amountRaw
  let tokenPrice : ℚ := match dir with
    | Direction.BUY => lamportsToSol amountRaw /
        (if (quoteOutAmount : ℚ) = 0 then 1 else (quoteOutAmount : ℚ))
    | Direction.SELL => lamportsToSol quoteOutAmount /
        (if (amountRaw : ℚ) = 0 then 1 else (amountRaw : ℚ))
  let st := recordVirtualTradeModel st dir mint solVal tokenVal tokenPrice
  let st := if dir = Direction.BUY then
    addDailySpent st (lamportsToSol amountRaw) else st
  { st with cooldowns := updateCooldown st.cooldowns mint now }

/-! ## Circuit breaker (`src/guard/circuitBreaker.ts`) -/

/-- One entry of the breaker's outcome ring (`TradeEvent`). -/
structure TradeEvent where
  ts : ℤ
  outcome : BreakerOutcome
  latencyMs : ℕ
  deriving DecidableEq, Repr

/-- The circuit-breaker configuration keys. -/
structure CBConfig where
  failWindowMinutes : ℕ
  failRatePct : ℚ
  noPositionSpike : ℕ
  latencyP99Ms : ℕ
  autoResetMinutes : ℕ
  deriving DecidableEq, Repr

/-- Why the breaker opened (the code stores a formatted message; only
the tag matters here). -/
inductive OpenReason
  | failRate
  | noPositionSpike
  | latencyP99
  deriving DecidableEq, Repr

/-- The breaker's module state: event ring, open flag, opened-at
timestamp and reason. -/
structure CBState where
  events : List TradeEvent
  isOpen : Bool
  openedAt : Option ℤ
  openReason : Option OpenReason
  deriving DecidableEq, Repr

/-- Insertion sort, ascending — the semantics of
`.sort((a, b) => a - b)` on the latency list. -/
def insertSorted (x : ℕ) : List ℕ → List ℕ
  | [] => [x]
  | y :: ys => if x ≤ y then x :: y :: ys else y :: insertSorted x ys

/-- Ascending sort of the COPIED latencies. -/
def sortAsc (l : List ℕ) : List ℕ := l.foldr insertSorted []

/-- The P99 pick of the code:
`latencies[Math.min(Math.floor(latencies.length * 0.99), latencies.length
- 1)]` on the ascending list (index arithmetic taken exact). -/
def p99Of (sorted : List ℕ) : ℕ :=
  sorted.getD (min (99 * sorted.length / 100) (sorted.length - 1)) 0

/-- Events inside the breaker window (`ts >= now - windowMinutes *
60_000`). -/
def cbRecent (cfg : CBConfig) (now : ℤ) (events : List TradeEvent) :
    List TradeEvent :=
  events.filter (fun e => now - (cfg.failWindowMinutes : ℤ) * 60000 ≤ e.ts)

/-- `_openCircuit`: no-op when already open; otherwise set the flag,
timestamp and reason. -/
def openCircuit (r : OpenReason) (now : ℤ) (st : CBState) : CBState :=
  if st.isOpen then st
  else { st with isOpen := true, openedAt := some now, openReason := some r }

/-- `_checkThresholds` from `src/guard/circuitBreaker.ts`: with the
breaker closed and at least 3 events in the window, open on (in order)
fail rate strictly above the threshold, NO_POSITION count reaching a
positive spike threshold, or — only when the latency threshold is
positive — P99 of at least 5 COPIED latencies strictly above it. -/
def checkThresholds (cfg : CBConfig) (now : ℤ) (st : CBState) : CBState :=
  if st.isOpen then st
  else
    let recent := cbRecent cfg now st.events
    if recent.length < 3 then st
    else
      let failed := (recent.filter
        (fun e => e.outcome = BreakerOutcome.FAILED)).length
      let failRate : ℚ := (failed : ℚ) / (recent.length : ℚ) * 100
      if cfg.failRatePct < failRate then openCircuit OpenReason.failRate now st
      else
        let noPos := (recent.filter
          (fun e => e.outcome = BreakerOutcome.NO_POSITION)).length
        if 0 < cfg.noPositionSpike ∧ cfg.noPositionSpike ≤ noPos then
          openCircuit OpenReason.noPositionSpike now st
        else if 0 < cfg.latencyP99Ms then
          let latencies := sortAsc ((recent.filter
            (fun e => e.outcome = BreakerOutcome.COPIED)).map (·.latencyMs))
          if 5 ≤ latencies.length then
            if cfg.latencyP99Ms < p99Of latencies then
              openCircuit OpenReason.latencyP99 now st
            else st
          else st
        else st

/-- `recordOutcome` from `src/guard/circuitBreaker.ts`: push the event,
drop the prefix older than twice the window, re-evaluate the
thresholds. -/
def recordOutcomeCB (cfg : CBConfig) (now : ℤ) (o : BreakerOutcome)
    (latencyMs : ℕ) (st : CBState) : CBState :=
  let events := st.events ++ [⟨now, o, latencyMs⟩]
  let cutoff := now - (cfg.failWindowMinutes : ℤ) * 2 * 60000
  let events := events.dropWhile (fun e => e.ts < cutoff)
  checkThresholds cfg now { st with events := events }

/-- `resetCircuit` from `src/guard/circuitBreaker.ts`. -/
def resetCircuitModel (st : CBState) : CBState :=
  if st.isOpen then { st with isOpen := false, openedAt := none } else st

/-- `isCircuitOpen` from `src/guard/circuitBreaker.ts`: closed breakers
answer `false`; an open breaker with positive auto-reset minutes and an
elapsed interval of at least that many minutes resets itself and answers
`false`; otherwise it answers `true`.  (JS reads `_openedAt &&` for
truthiness; `Date.now()` is always positive, so the `some` match is
equivalent.)  Returns the answer and the possibly-reset state. -/
def isCircuitOpenModel (cfg : CBConfig) (now : ℤ) (st : CBState) :
    Bool × CBState :=
  if st.isOpen = false then (false, st)
  else
    match st.openedAt with
    | some t =>
      if 0 < cfg.autoResetMinutes ∧
          (cfg.autoResetMinutes : ℚ) ≤ ((now - t : ℤ) : ℚ) / 60000 then
        (false, resetCircuitModel st)
      else (true, st)
    | none => (true, st)

/-- The open condition exactly as the claim words it (for the
counterexample): the latency clause is NOT gated on a positive latency
threshold. -/
def specBreakerOpens (cfg : CBConfig) (recent : List TradeEvent) : Prop :=
  3 ≤ recent.length ∧
    (cfg.failRatePct <
        ((recent.filter (fun e => e.outcome = BreakerOutcome.FAILED)).length :
          ℚ) / (recent.length : ℚ) * 100 ∨
     (0 < cfg.noPositionSpike ∧ cfg.noPositionSpike ≤
        (recent.filter
          (fun e => e.outcome = BreakerOutcome.NO_POSITION)).length) ∨
     (5 ≤ (sortAsc ((recent.filter
          (fun e => e.outcome = BreakerOutcome.COPIED)).map
            (·.latencyMs))).length ∧
      cfg.latencyP99Ms < p99Of (sortAsc ((recent.filter
        (fun e => e.outcome = BreakerOutcome.COPIED)).map (·.latencyMs)))))

instance (cfg : CBConfig) (recent : List TradeEvent) :
    Decidable (specBreakerOpens cfg recent) := by
  unfold specBreakerOpens
  infer_instance

/-- The open condition as the code enforces it — the amended claim: like
`specBreakerOpens` but with the latency clause additionally gated on a
positive latency threshold (mirroring the gate the claim already grants
the NO_POSITION spike clause). -/
def amendedBreakerOpens (cfg : CBConfig) (recent : List TradeEvent) : Prop :=
  3 ≤ recent.length ∧
    (cfg.failRatePct <
        ((recent.filter (fun e => e.outcome = BreakerOutcome.FAILED)).length :
          ℚ) / (recent.length : ℚ) * 100 ∨
     (0 < cfg.noPositionSpike ∧ cfg.noPositionSpike ≤
        (recent.filter
          (fun e => e.outcome = BreakerOutcome.NO_POSITION)).length) ∨
     (0 < cfg.latencyP99Ms ∧
      5 ≤ (sortAsc ((recent.filter
          (fun e => e.outcome = BreakerOutcome.COPIED)).map
            (·.latencyMs))).length ∧
      cfg.latencyP99Ms < p99Of (sortAsc ((recent.filter
        (fun e => e.outcome = BreakerOutcome.COPIED)).map (·.latencyMs)))))

instance (cfg : CBConfig) (recent : List TradeEvent) :
    Decidable (amendedBreakerOpens cfg recent) := by
  unfold amendedBreakerOpens
  infer_instance

/-! ## Push endpoint: rate limiter and responder (`src/index.ts`,
`src/webhook/handler.ts`) -/

/-- Response bodies of the webhook path. -/
inductive RespBody
  | okTrue
  | tooManyRequests
  deriving DecidableEq, Repr

/-- Observable steps of handling one POST to the push endpoint, in
order: the reply sent, then each deferred transaction processing. -/
inductive WebhookStep
  | respond (status : ℕ) (body : RespBody)
  | processTx (sig : String)
  deriving DecidableEq, Repr

/-- One POST to `/webhook/helius` through the fixed-window rate limiter
of `src/index.ts` (`if (++reqCount > 120) res.status(429)...`) and, when
admitted, the route handler of the current webhook revision
(`res.status(200).json({ok:true})` first, then the payload processed
sequentially).  Returns the new request counter and the ordered step
trace. -/
def webhookPipeline (reqCount : ℕ) (payload : List String) :
    ℕ × List WebhookStep :=
  let c := reqCount + 1
  if 120 < c then (c, [WebhookStep.respond 429 RespBody.tooManyRequests])
  else (c, WebhookStep.respond 200 RespBody.okTrue ::
    payload.map WebhookStep.processTx)

/-! ## Concrete instances used by witnesses and counterexamples -/

/-- Concrete run for C1: the same signature submitted by two producers
(webhook and poll see the same swap); the second submission is dropped by
the ledger check and exactly one metric row, source trade and position
mutation result. -/
def demoState : PipeState := ⟨[], [], [], [], [], [], []⟩

/-- The duplicate submissions of the concrete C1 run. -/
def demoSubs : List Submission :=
  [⟨"sigA", Direction.BUY, "mintM", StageEffect.copied 1000 500000000 6,
     false, 0⟩,
   ⟨"sigA", Direction.BUY, "mintM", StageEffect.copied 1000 500000000 6,
     false, 0⟩]

/-- Concrete observation trace for the C4 witness: the pending BUY's
position appears after the third sleep. -/
def demoObs : ℕ → BufferObs :=
  fun i => if i < 2 then ⟨none, true⟩ else ⟨some 5, true⟩

/-- Concrete pre-stage state for the C4 witness: pending BUY for
`mintM`, empty store. -/
def demoSellState : PipeState := ⟨[], ["mintM"], [], [], [], [], []⟩

/-- Observation trace for the C7 witness: the position stays `SENT`
through every poll. -/
def sentObs : ℕ → Option Position := fun _ => some ⟨100, 6, PosStatus.SENT⟩

/-- Breaker configuration of the latency counterexample: latency
threshold 0 (the code treats 0 as "disabled"), spike 0, fail rate 50,
window 10 min, manual reset. -/
def cbLatencyDemoConfig : CBConfig := ⟨10, 50, 0, 0, 0⟩

/-- Five COPIED outcomes of latency 1000 ms recorded at t = 0..4 on a
fresh breaker. -/
def cbLatencyDemoState : CBState :=
  recordOutcomeCB cbLatencyDemoConfig 4 BreakerOutcome.COPIED 1000
    (recordOutcomeCB cbLatencyDemoConfig 3 BreakerOutcome.COPIED 1000
      (recordOutcomeCB cbLatencyDemoConfig 2 BreakerOutcome.COPIED 1000
        (recordOutcomeCB cbLatencyDemoConfig 1 BreakerOutcome.COPIED 1000
          (recordOutcomeCB cbLatencyDemoConfig 0 BreakerOutcome.COPIED 1000
            ⟨[], false, none, none⟩))))

/-- Breaker configuration of the fail-rate witness (spec scenario 4):
30 % fail-rate threshold in a 10-minute window. -/
def cbFailDemoConfig : CBConfig := ⟨10, 30, 0, 0, 0⟩

/-- Two FAILED outcomes recorded on a fresh breaker: still below the
3-sample minimum, so still closed. -/
def cbFailDemoState : CBState :=
  recordOutcomeCB cbFailDemoConfig 1 BreakerOutcome.FAILED 50
    (recordOutcomeCB cbFailDemoConfig 0 BreakerOutcome.FAILED 50
      ⟨[], false, none, none⟩)

/-! # Theorems -/

/-! ## Ledger lemmas and C2 -/

theorem mem_markEventProcessed_of_mem {ledger : List String} {s sig : String}
    (h : s ∈ ledger) : s ∈ markEventProcessed ledger sig := by
  unfold markEventProcessed
  split
  · exact h
  · exact List.mem_cons_of_mem _ h

theorem mem_processSignatures_of_mem {s : String} (sigs : List String) :
    ∀ ledger : List String, s ∈ ledger → s ∈ processSignatures ledger sigs := by
  induction sigs with
  | nil => intro ledger h; simpa [processSignatures] using h
  | cons x xs ih =>
    intro ledger h
    simpa [processSignatures] using
      ih (markEventProcessed ledger x) (mem_markEventProcessed_of_mem h)

theorem self_mem_markEventProcessed (ledger : List String) (sig : String) :
    sig ∈ markEventProcessed ledger sig := by
  unfold markEventProcessed
  split
  · next h => simpa using h
  · exact List.mem_cons_self _ _

/-- **C2.** The check-and-insert primitive on the processed-events ledger
returns `true` exactly when the signature is not yet in the ledger (its
first call), and after that call — whatever other signatures are
check-and-inserted in between — every subsequent call with the same
signature returns `false`. -/
theorem checkAndInsert_first_true_then_false (ledger : List String)
    (sig : String) (later : List String) :
    ((checkAndInsertSignature ledger sig).1 = true ↔ sig ∉ ledger) ∧
      (checkAndInsertSignature
        (processSignatures (checkAndInsertSignature ledger sig).2 later)
        sig).1 = false := by
  constructor
  · simp [checkAndInsertSignature, isEventProcessed]
  · have hmem : sig ∈ processSignatures
        (checkAndInsertSignature ledger sig).2 later :=
      mem_processSignatures_of_mem later _
        (by simpa [checkAndInsertSignature] using
          self_mem_markEventProcessed ledger sig)
    simp only [checkAndInsertSignature] at hmem
    simp [checkAndInsertSignature, isEventProcessed, hmem]

/-- Witness for C2 on a fresh ledger: the first call admits the
signature, and after two unrelated signatures and one duplicate, a
further call with the same signature is refused. -/
theorem checkAndInsert_first_true_then_false_witness :
    (checkAndInsertSignature [] "sigX").1 = true ∧
      (checkAndInsertSignature
        (processSignatures (checkAndInsertSignature [] "sigX").2
          ["sigY", "sigZ", "sigX"]) "sigX").1 = false := by
  have h := checkAndInsert_first_true_then_false [] "sigX"
    ["sigY", "sigZ", "sigX"]
  exact ⟨h.1.mpr (by simp), h.2⟩

/-! ## Serialized-stage lemmas and C1 -/

/-- A submission whose signature is already in the ledger leaves the
state untouched: the stage body returns before recording a source trade,
metric, breaker outcome or position mutation. -/
theorem runInner_processed {st : PipeState} {sub : Submission}
    (h : st.ledger.contains sub.sig = true) : runInner st sub = st := by
  unfold runInner
  rw [if_pos h]

theorem runInner_fresh_ledger {st : PipeState} {sub : Submission}
    (h : st.ledger.contains sub.sig = false) :
    (runInner st sub).ledger = sub.sig :: st.ledger := by
  unfold runInner
  rw [if_neg (by simpa using h)]
  have hnm : sub.sig ∉ st.ledger := by simpa using h
  cases sub.effect <;> (dsimp only [] ; split) <;>
    simp [markEventProcessed, hnm]

theorem runInner_fresh_sourceTrades {st : PipeState} {sub : Submission}
    (h : st.ledger.contains sub.sig = false) :
    (runInner st sub).sourceTrades = st.sourceTrades ++ [sub.sig] := by
  unfold runInner
  rw [if_neg (by simpa using h)]
  cases sub.effect <;> (dsimp only [] ; split) <;> simp

theorem runInner_fresh_metrics {st : PipeState} {sub : Submission}
    (h : st.ledger.contains sub.sig = false) :
    (runInner st sub).metrics = st.metrics ++
      [⟨sub.sig, sub.direction, metricOutcomeOf sub.effect,
        sub.sellBuffered, sub.sellBufferMs⟩] := by
  unfold runInner
  rw [if_neg (by simpa using h)]
  cases sub.effect <;> (dsimp only [] ; split) <;> simp [metricOutcomeOf]

theorem runInner_fresh_posMutations {st : PipeState} {sub : Submission}
    (h : st.ledger.contains sub.sig = false) :
    (runInner st sub).posMutations = st.posMutations ++
      (if mutatesPosition sub.effect then [sub.sig] else []) := by
  unfold runInner
  rw [if_neg (by simpa using h)]
  cases sub.effect <;> (dsimp only [] ; split) <;> simp [mutatesPosition]

/-- Once a signature is in the ledger, the rest of the pipeline run never
adds a metric row, source trade or position mutation for it (and the
signature stays in the ledger). -/
theorem runPipeline_stable {sig : String} (subs : List Submission) :
    ∀ st : PipeState, st.ledger.contains sig = true →
      (runPipeline st subs).ledger.contains sig = true ∧
      metricCountFor (runPipeline st subs) sig = metricCountFor st sig ∧
      tradeCountFor (runPipeline st subs) sig = tradeCountFor st sig ∧
      mutationCountFor (runPipeline st subs) sig = mutationCountFor st sig := by
  induction subs with
  | nil => intro st h; exact ⟨h, rfl, rfl, rfl⟩
  | cons sub rest ih =>
    intro st h
    by_cases hdup : st.ledger.contains sub.sig = true
    · have heq : runInner st sub = st := runInner_processed hdup
      simpa [runPipeline, List.foldl_cons, heq] using ih st h
    · have hdup' : st.ledger.contains sub.sig = false :=
        Bool.eq_false_iff.mpr hdup
      have hne : sub.sig ≠ sig := by
        intro hEq; rw [hEq] at hdup'; rw [hdup'] at h; exact Bool.false_ne_true h
      have hled : (runInner st sub).ledger.contains sig = true := by
        rw [runInner_fresh_ledger hdup']
        have hmem : sig ∈ st.ledger := by simpa using h
        simp [hmem]
      have hm : metricCountFor (runInner st sub) sig = metricCountFor st sig := by
        unfold metricCountFor
        rw [runInner_fresh_metrics hdup']
        simp [List.filter_append, hne]
      have ht : tradeCountFor (runInner st sub) sig = tradeCountFor st sig := by
        unfold tradeCountFor
        rw [runInner_fresh_sourceTrades hdup']
        simp [List.filter_append, hne]
      have hp : mutationCountFor (runInner st sub) sig =
          mutationCountFor st sig := by
        unfold mutationCountFor
        rw [runInner_fresh_posMutations hdup']
        split <;> simp [List.filter_append, hne]
      have := ih (runInner st sub) hled
      simp only [runPipeline, List.foldl_cons] at this ⊢
      exact ⟨this.1, this.2.1.trans hm, this.2.2.1.trans ht, this.2.2.2.trans hp⟩

/-- Over a run that starts with the signature never seen, the pipeline
records the signature's rows exactly when the signature is submitted at
least once. -/
theorem runPipeline_fresh {sig : String} (subs : List Submission) :
    ∀ st : PipeState, st.ledger.contains sig = false →
      metricCountFor (runPipeline st subs) sig = metricCountFor st sig +
        (if subs.any (fun sub => sub.sig = sig) then 1 else 0) ∧
      tradeCountFor (runPipeline st subs) sig = tradeCountFor st sig +
        (if subs.any (fun sub => sub.sig = sig) then 1 else 0) ∧
      mutationCountFor (runPipeline st subs) sig ≤ mutationCountFor st sig +
        (if subs.any (fun sub => sub.sig = sig) then 1 else 0) := by
  induction subs with
  | nil => intro st _h; simp [runPipeline]
  | cons sub rest ih =>
    intro st h
    by_cases hs : sub.sig = sig
    · -- first submission of this signature: it is processed now
      have hdup : st.ledger.contains sub.sig = false := by rw [hs]; exact h
      have hled : (runInner st sub).ledger.contains sig = true := by
        rw [runInner_fresh_ledger hdup]
        simp [hs]
      have hstable := runPipeline_stable rest (runInner st sub) hled
      have hm : metricCountFor (runInner st sub) sig =
          metricCountFor st sig + 1 := by
        unfold metricCountFor
        rw [runInner_fresh_metrics hdup]
        simp [List.filter_append, hs]
      have ht : tradeCountFor (runInner st sub) sig =
          tradeCountFor st sig + 1 := by
        unfold tradeCountFor
        rw [runInner_fresh_sourceTrades hdup]
        simp [List.filter_append, hs]
      have hp : mutationCountFor (runInner st sub) sig ≤
          mutationCountFor st sig + 1 := by
        unfold mutationCountFor
        rw [runInner_fresh_posMutations hdup]
        split <;> simp [List.filter_append, hs]
      have hany : (sub :: rest).any (fun s => s.sig = sig) = true := by
        simp [hs]
      simp only [runPipeline, List.foldl_cons] at hstable ⊢
      rw [hany]
      refine ⟨?_, ?_, ?_⟩
      · rw [hstable.2.1, hm]; simp
      · rw [hstable.2.2.1, ht]; simp
      · rw [hstable.2.2.2]; simpa using hp
    · -- a different signature: counts for `sig` are untouched
      by_cases hdup : st.ledger.contains sub.sig = true
      · have heq : runInner st sub = st := runInner_processed hdup
        have := ih st h
        simp only [runPipeline, List.foldl_cons, heq] at this ⊢
        simpa [List.any_cons, hs] using this
      · have hdup' : st.ledger.contains sub.sig = false :=
          Bool.eq_false_iff.mpr hdup
        have hled : (runInner st sub).ledger.contains sig = false := by
          rw [runInner_fresh_ledger hdup']
          have h1 : sig ∉ st.ledger := by simpa using h
          have h2 : sig ≠ sub.sig := fun hEq => hs hEq.symm
          simp [h1, h2]
        have hm : metricCountFor (runInner st sub) sig =
            metricCountFor st sig := by
          unfold metricCountFor
          rw [runInner_fresh_metrics hdup']
          simp [List.filter_append, hs]
        have ht : tradeCountFor (runInner st sub) sig =
            tradeCountFor st sig := by
          unfold tradeCountFor
          rw [runInner_fresh_sourceTrades hdup']
          simp [List.filter_append, hs]
        have hp : mutationCountFor (runInner st sub) sig =
            mutationCountFor st sig := by
          unfold mutationCountFor
          rw [runInner_fresh_posMutations hdup']
          split <;> simp [List.filter_append, hs]
        obtain ⟨t1, t2, t3⟩ := ih (runInner st sub) hled
        simp only [runPipeline, List.foldl_cons] at t1 t2 t3 ⊢
        have hanyEq : ((sub :: rest).any fun s => decide (s.sig = sig))
            = (rest.any fun s => decide (s.sig = sig)) := by
          simp [List.any_cons, hs]
        rw [hanyEq]
        rw [hp] at t3
        exact ⟨by rw [t1, hm], by rw [t2, ht], t3⟩

/-- **C1.** With the decision stage serialized by the mutex, for every
signature never seen before the run: whatever interleaving of producers
produced the arrival order (including several submissions of the same
signature), the run records exactly one metric row and one source trade
for that signature when it is submitted at least once (none otherwise),
at most one position-mutation invocation — and any submission of an
already-ledgered signature returns with the state completely
unchanged. -/
theorem stage_at_most_once (st : PipeState) (subs : List Submission)
    (sig : String) (hled : st.ledger.contains sig = false)
    (hm : metricCountFor st sig = 0) (ht : tradeCountFor st sig = 0)
    (hp : mutationCountFor st sig = 0) :
    metricCountFor (runPipeline st subs) sig =
        (if subs.any (fun sub => sub.sig = sig) then 1 else 0) ∧
      tradeCountFor (runPipeline st subs) sig =
        (if subs.any (fun sub => sub.sig = sig) then 1 else 0) ∧
      mutationCountFor (runPipeline st subs) sig ≤ 1 ∧
      ∀ (st' : PipeState) (sub : Submission),
        st'.ledger.contains sub.sig = true → runInner st' sub = st' := by
  have h := runPipeline_fresh subs st hled
  refine ⟨?_, ?_, ?_, fun _ _ hdup => runInner_processed hdup⟩
  · rw [h.1, hm, Nat.zero_add]
  · rw [h.2.1, ht, Nat.zero_add]
  · refine le_trans h.2.2 ?_
    rw [hp, Nat.zero_add]
    split <;> simp

theorem stage_at_most_once_witness :
    metricCountFor (runPipeline demoState demoSubs) "sigA" = 1 ∧
      tradeCountFor (runPipeline demoState demoSubs) "sigA" = 1 ∧
      mutationCountFor (runPipeline demoState demoSubs) "sigA" ≤ 1 := by
  have h := stage_at_most_once demoState demoSubs "sigA" rfl rfl rfl rfl
  refine ⟨?_, ?_, h.2.2.1⟩
  · rw [h.1]; decide
  · rw [h.2.1]; decide

/-! ## Position state machine and C3 -/

theorem getPosition_map_replace (mint : String) (a : ℤ) (d : ℕ) :
    ∀ ps : Positions, ps.any (fun r => r.1 = mint) = true →
      getPosition (ps.map (fun r =>
        if r.1 = mint then (mint, ⟨a, d, PosStatus.CONFIRMED⟩) else r)) mint =
      some ⟨a, d, PosStatus.CONFIRMED⟩ := by
  intro ps
  induction ps with
  | nil => intro h; simp at h
  | cons r ps ih =>
    intro h
    by_cases hr : r.1 = mint
    · simp [getPosition, hr]
    · have hany : ps.any (fun r => r.1 = mint) = true := by
        simpa [List.any_cons, hr] using h
      simpa [getPosition, List.find?, hr] using ih hany

theorem getPosition_append_new (mint : String) (a : ℤ) (d : ℕ) :
    ∀ ps : Positions, ps.any (fun r => r.1 = mint) = false →
      getPosition (ps ++ [(mint, ⟨a, d, PosStatus.CONFIRMED⟩)]) mint =
      some ⟨a, d, PosStatus.CONFIRMED⟩ := by
  intro ps
  induction ps with
  | nil => intro _h; simp [getPosition]
  | cons r ps ih =>
    intro h
    have hr : ¬ r.1 = mint := by
      intro hEq
      simp [List.any_cons, hEq] at h
    have hany : ps.any (fun r => r.1 = mint) = false := by
      simpa [List.any_cons, hr] using h
    simpa [getPosition, List.find?, hr] using ih hany

theorem getPosition_upsertPosition (mint : String) (a : ℤ) (d : ℕ)
    (ps : Positions) : getPosition (upsertPosition ps mint a d) mint =
      some ⟨a, d, PosStatus.CONFIRMED⟩ := by
  unfold upsertPosition
  split
  · next hany => exact getPosition_map_replace mint a d ps hany
  · next hany =>
    exact getPosition_append_new mint a d ps (Bool.eq_false_iff.mpr hany)

/-- **C3** (behaviour of the code at the claim's failing input).  The
position write after a successful BUY — the only one the pipeline
performs, in live mode exactly as in simulation mode — goes through
`handleBuy`/`upsertPosition` and always leaves the row with status
`CONFIRMED` and balance `existing + quoted out`; `setPendingPosition`
(the only writer of status `SENT`) has no call site, so a live BUY never
produces the `SENT` row the claim describes. -/
theorem buy_success_always_CONFIRMED (ps : Positions) (mint : String)
    (tokenDecimals : ℕ) (quoteOutAmount : ℤ) :
    getPosition (handleBuy ps mint tokenDecimals quoteOutAmount) mint =
      some ⟨((getPosition ps mint).map (·.amountRaw)).getD 0 + quoteOutAmount,
        tokenDecimals, PosStatus.CONFIRMED⟩ := by
  unfold handleBuy
  exact getPosition_upsertPosition mint _ tokenDecimals ps

/-! ## Sell-before-buy buffering and C4 -/

theorem sellBufferAux_le (obs : ℕ → BufferObs) :
    ∀ fuel i, sellBufferAux obs fuel i ≤ i + fuel := by
  intro fuel
  induction fuel with
  | zero => intro i; simp [sellBufferAux]
  | succ fuel ih =>
    intro i
    unfold sellBufferAux
    split
    · omega
    · have := ih (i + 1)
      omega

theorem sellBufferAux_exit (obs : ℕ → BufferObs) :
    ∀ fuel i k, k < fuel → bufferExit (obs (i + k)) = true →
      (∀ j, j < k → bufferExit (obs (i + j)) = false) →
      sellBufferAux obs fuel i = i + k + 1 := by
  intro fuel
  induction fuel with
  | zero => intro i k hk; omega
  | succ fuel ih =>
    intro i k hk hexit hbefore
    unfold sellBufferAux
    match hk0 : k with
    | 0 =>
      rw [if_pos (by simpa using hexit)]
    | k' + 1 =>
      have h0 : bufferExit (obs i) = false := by
        simpa using hbefore 0 (Nat.succ_pos _)
      rw [if_neg (by simp [h0])]
      have := ih (i + 1) k' (by omega)
        (by have := hexit; rw [show i + 1 + k' = i + (k' + 1) by omega]; exact this)
        (by intro j hj
            have := hbefore (j + 1) (by omega)
            rw [show i + 1 + j = i + (j + 1) by omega]
            exact this)
      omega

/-- **C4.** A SELL whose mint carries a pending-BUY flag while the store
has no (or a zero-balance) position buffers before entering the
serialized stage: the loop sleeps in 500 ms steps at most 8 times (so at
most 4 s), stops right after the first iteration that observes a
positive-balance position or a cleared pending flag, and the measured
buffer delay is written into the pipeline-metric row recorded for the
signature (together with `sell_buffered = true`). -/
theorem sell_before_buy_buffering (st : PipeState) (mint sig : String)
    (obs : ℕ → BufferObs) (effect : StageEffect)
    (hpend : st.pendingBuys.contains mint = true)
    (hpos : noLivePosition (getPosition st.positions mint) = true)
    (hfresh : st.ledger.contains sig = false) :
    sellBufferSleeps obs ≤ 8 ∧
      (∀ i, i < 8 → bufferExit (obs i) = true →
        (∀ j, j < i → bufferExit (obs j) = false) →
        sellBufferSleeps obs = i + 1) ∧
      (handleParsedSwapModel st Direction.SELL mint sig obs effect).metrics =
        st.metrics ++ [⟨sig, Direction.SELL, metricOutcomeOf effect, true,
          500 * sellBufferSleeps obs⟩] := by
  refine ⟨by simpa using sellBufferAux_le obs 8 0, ?_, ?_⟩
  · intro i hi hexit hbefore
    have := sellBufferAux_exit obs 8 0 i hi (by simpa using hexit)
      (by intro j hj; simpa using hbefore j hj)
    simpa [sellBufferSleeps] using this
  · unfold handleParsedSwapModel
    simp only [hpend, hpos, true_and, and_true, if_pos rfl, if_true]
    exact runInner_fresh_metrics hfresh

theorem sell_before_buy_buffering_witness :
    sellBufferSleeps demoObs ≤ 8 ∧
      sellBufferSleeps demoObs = 3 ∧
      (handleParsedSwapModel demoSellState Direction.SELL "mintM" "sigS"
          demoObs (StageEffect.rejected Reason.noPosition)).metrics =
        [⟨"sigS", Direction.SELL, MetricOutcome.REJECTED, true, 1500⟩] := by
  have h := sell_before_buy_buffering demoSellState "mintM" "sigS" demoObs
    (StageEffect.rejected Reason.noPosition) rfl rfl rfl
  refine ⟨h.1, ?_, ?_⟩
  · exact h.2.1 2 (by decide) (by decide) (by decide)
  · have h3 : sellBufferSleeps demoObs = 3 :=
      h.2.1 2 (by decide) (by decide) (by decide)
    rw [h.2.2, h3]
    decide

/-! ## Adaptive fee guard and C6 -/

/-- **C6.** For every BUY with proposed spend `s`: the estimated fee is
the base transaction fee plus the priority fee plus the ATA-creation
rent exactly when no position exists for the token, expressed as a
percent of `s`; the effective threshold is the base maximum fee percent
for `s ≥ 0.5`, twice it for `0.1 ≤ s < 0.5` and three times it for
`s < 0.1`; and the fee guard rejects if and only if the fee percent
exceeds that effective threshold. -/
theorem adaptive_fee_guard (maxPct : ℚ) (prio : ℕ) (pos : Option Position)
    (s : ℚ) :
    ((buyFeeGuard maxPct prio pos s).rejected = true ↔
      (buyFeeGuard maxPct prio pos s).effectiveMaxFeePct <
        (buyFeeGuard maxPct prio pos s).feePct) ∧
    (buyFeeGuard maxPct prio pos s).feePct =
      ((5000 + (prio : ℚ) + (if pos = none then 2039280 else 0))
        / 1000000000) / s * 100 ∧
    (1/2 ≤ s → (buyFeeGuard maxPct prio pos s).effectiveMaxFeePct = maxPct) ∧
    (1/10 ≤ s ∧ s < 1/2 →
      (buyFeeGuard maxPct prio pos s).effectiveMaxFeePct = maxPct * 2) ∧
    (s < 1/10 →
      (buyFeeGuard maxPct prio pos s).effectiveMaxFeePct = maxPct * 3) := by
  refine ⟨by simp [buyFeeGuard], ?_, ?_, ?_, ?_⟩
  · show (estimateFeeSol prio pos.isNone) / s * 100 = _
    unfold estimateFeeSol lamportsToSol BASE_TX_FEE_LAMPORTS
      ATA_CREATION_LAMPORTS
    rcases pos with _ | p <;> simp
  · intro h
    show getAdaptiveFeePct maxPct s = maxPct
    unfold getAdaptiveFeePct
    rw [if_pos h]
  · rintro ⟨h1, h2⟩
    show getAdaptiveFeePct maxPct s = maxPct * 2
    unfold getAdaptiveFeePct
    rw [if_neg (by linarith), if_pos h1]
  · intro h
    show getAdaptiveFeePct maxPct s = maxPct * 3
    unfold getAdaptiveFeePct
    rw [if_neg (by linarith), if_neg (by linarith)]

/-- Witness for C6 at the spec's boundary examples: a 0.03 SOL trade is
held to three times the base threshold, a 1.0 SOL trade to the base
threshold, and at `MAX_FEE_PCT = 5`, priority fee 100000 lamports the
0.03 SOL trade of a new token passes (fee ≈ 7.15 % ≤ 15 %). -/
theorem adaptive_fee_guard_witness :
    ((1 : ℚ)/10 ≤ 3/100 ∨ True) ∧
      (buyFeeGuard 5 100000 none (3/100)).effectiveMaxFeePct = 5 * 3 ∧
      (buyFeeGuard 5 100000 (some ⟨1, 6, PosStatus.CONFIRMED⟩)
        1).effectiveMaxFeePct = 5 ∧
      (buyFeeGuard 5 100000 none (3/100)).rejected = false := by
  have h1 := adaptive_fee_guard 5 100000 none (3/100)
  have h2 := adaptive_fee_guard 5 100000 (some ⟨1, 6, PosStatus.CONFIRMED⟩) 1
  refine ⟨Or.inr trivial, ?_, ?_, ?_⟩
  · exact h1.2.2.2.2 (by norm_num)
  · exact h2.2.2.1 (by norm_num)
  · have hiff := h1.1
    have hpct := h1.2.1
    have heff := h1.2.2.2.2 (by norm_num)
    rw [Bool.eq_false_iff]
    intro hcontra
    have := hiff.mp hcontra
    rw [hpct, heff] at this
    norm_num at this

/-! ## Price-drift guard and C5 -/

/-- **C5 counterexample.** A negative quote out amount does NOT yield a
null drift: at upstream 1 SOL for 1 000 000 raw tokens (6 decimals),
proposed spend 1 SOL and quote out −1 000 000, `computePriceDrift`
returns −200, not null — the claim's "quote out amount … zero or
non-positive ⇒ drift is null" fails. -/
theorem computePriceDrift_negative_quote_not_null :
    computePriceDrift 1 1000000 1 (-1000000) 6 = some (-200) ∧
      computePriceDrift 1 1000000 1 (-1000000) 6 ≠ none := by
  have h : computePriceDrift 1 1000000 1 (-1000000) 6 = some (-200) := by
    unfold computePriceDrift
    norm_num
  exact ⟨h, by rw [h]; simp⟩

/-- **C5 (amended).** For a BUY that reaches the drift guard: the drift
is null exactly when the upstream token amount is zero or negative, the
quote out amount is zero, or either SOL amount is non-positive; on
all-positive inputs it equals `(p_quote / p_src − 1) × 100` with
`p_src = upstream_sol / (upstream_tokens / 10^dec)` and
`p_quote = s / (quote_out / 10^dec)`; the guard (when not skipped)
rejects with the drift recorded exactly when the configured threshold is
positive and the drift exceeds `threshold × 100`; and for an
unsafe-parse descriptor with the disable flag set the guard is skipped
(no drift recorded, no rejection). -/
theorem price_drift_guard (srcSol : ℚ) (srcTok : ℤ) (botSol : ℚ)
    (qOut : ℤ) (dec : ℕ) (maxPct : ℚ) (unsafeFlag disableFlag : Bool) :
    (computePriceDrift srcSol srcTok botSol qOut dec = none ↔
      srcTok ≤ 0 ∨ qOut = 0 ∨ srcSol ≤ 0 ∨ botSol ≤ 0) ∧
    (0 < srcTok → 0 < qOut → 0 < srcSol → 0 < botSol →
      computePriceDrift srcSol srcTok botSol qOut dec =
        some (((botSol / ((qOut : ℚ) / 10 ^ dec)) /
          (srcSol / ((srcTok : ℚ) / 10 ^ dec)) - 1) * 100)) ∧
    ((unsafeFlag && disableFlag) = false →
      ∀ d : ℚ,
        driftGuardStep unsafeFlag disableFlag maxPct srcSol srcTok botSol
            qOut dec = DriftGuardResult.reject d ↔
          (computePriceDrift srcSol srcTok botSol qOut dec = some d ∧
            0 < maxPct ∧ maxPct * 100 < d)) ∧
    ((unsafeFlag && disableFlag) = true →
      driftGuardStep unsafeFlag disableFlag maxPct srcSol srcTok botSol
        qOut dec = DriftGuardResult.pass none) := by
  have hscale : (0 : ℚ) < 10 ^ dec := by positivity
  refine ⟨?_, ?_, ?_, ?_⟩
  · unfold computePriceDrift
    split
    · next h => simp [h]
    · next h1 =>
      split
      · next h => simp [h]
      · next h2 =>
        split
        · next h => rcases h with h | h <;> simp [h]
        · next h3 =>
          push_neg at h3
          obtain ⟨hss, hbs⟩ := h3
          dsimp only
          split
          · next h4 =>
            -- priceSource ≤ 0 forces a negative upstream token amount
            refine iff_of_true rfl (Or.inl ?_)
            by_contra hpos
            push_neg at hpos
            have hq : (0 : ℚ) < (srcTok : ℚ) / 10 ^ dec :=
              div_pos (by exact_mod_cast hpos) hscale
            exact absurd (div_pos hss hq) (not_lt.mpr h4)
          · next h4 =>
            refine iff_of_false (by simp) ?_
            push_neg
            refine ⟨?_, h2, hss, hbs⟩
            by_contra hle
            push_neg at hle
            have h5 : srcTok < 0 := lt_of_le_of_ne hle h1
            have hneg : (srcTok : ℚ) / 10 ^ dec < 0 :=
              div_neg_of_neg_of_pos (by exact_mod_cast h5) hscale
            exact h4 (le_of_lt (div_neg_of_pos_of_neg hss hneg))
  · intro h1 h2 h3 h4
    unfold computePriceDrift
    rw [if_neg (by omega), if_neg (by omega),
      if_neg (by push_neg; constructor <;> linarith)]
    rw [if_neg]
    push_neg
    exact div_pos h3 (div_pos (by exact_mod_cast h1) hscale)
  · intro hskip d
    unfold driftGuardStep
    rw [if_neg (by simp [hskip])]
    cases hcd : computePriceDrift srcSol srcTok botSol qOut dec with
    | none => simp
    | some d0 =>
      dsimp only
      by_cases hcond : 0 < maxPct ∧ maxPct * 100 < d0
      · rw [if_pos hcond]
        constructor
        · rintro ⟨⟩
          exact ⟨rfl, hcond⟩
        · rintro ⟨hsome, _⟩
          injection hsome with h
          rw [h]
      · rw [if_neg hcond]
        constructor
        · intro h; cases h
        · rintro ⟨hsome, hc1, hc2⟩
          injection hsome with h
          exact absurd ⟨hc1, by rw [h]; exact hc2⟩ hcond
  · intro hskip
    unfold driftGuardStep
    rw [if_pos (by simp [hskip])]

/-- Witness for C5 at the spec's drift scenario: upstream paid 1 SOL for
1 000 000 raw tokens (6 decimals), the bot would pay 1 SOL for a quote
of 500 000 → drift = 100 %; at threshold 0.2 (20 %) the guard rejects
with the drift recorded. -/
theorem price_drift_guard_witness :
    computePriceDrift 1 1000000 1 500000 6 = some 100 ∧
      driftGuardStep false false (1/5) 1 1000000 1 500000 6 =
        DriftGuardResult.reject 100 := by
  have h := price_drift_guard 1 1000000 1 500000 6 (1/5) false false
  have hval : computePriceDrift 1 1000000 1 500000 6 = some 100 := by
    have := h.2.1 (by norm_num) (by norm_num) (by norm_num) (by norm_num)
    rw [this]
    norm_num
  refine ⟨hval, ?_⟩
  exact (h.2.2.1 (by norm_num) 100).mpr ⟨hval, by norm_num, by norm_num⟩

/-! ## Sell-on-SENT polling and C7 -/

theorem sentWaitAux_sleeps_le (obs : ℕ → Option Position) :
    ∀ fuel i, (sentWaitAux obs fuel i).2 ≤ i + fuel := by
  intro fuel
  induction fuel with
  | zero => intro i; simp [sentWaitAux]
  | succ fuel ih =>
    intro i
    unfold sentWaitAux
    rcases hobs : obs i with _ | p
    · dsimp only; omega
    · dsimp only
      by_cases hs : p.status = PosStatus.CONFIRMED
      · rw [if_pos hs]; omega
      · rw [if_neg hs]
        have := ih (i + 1)
        omega

theorem sentWaitAux_not_confirmed (obs : ℕ → Option Position) :
    ∀ fuel i,
      (∀ j, i ≤ j → j < i + fuel → ∀ q, obs j = some q →
        q.status ≠ PosStatus.CONFIRMED) →
      (sentWaitAux obs fuel i).1 = false := by
  intro fuel
  induction fuel with
  | zero => intro i _h; simp [sentWaitAux]
  | succ fuel ih =>
    intro i h
    unfold sentWaitAux
    rcases hobs : obs i with _ | p
    · dsimp only
    · dsimp only
      have hs : p.status ≠ PosStatus.CONFIRMED :=
        h i (le_refl i) (by omega) p hobs
      rw [if_neg hs]
      exact ih (i + 1) (fun j h1 h2 q hq => h j (by omega) (by omega) q hq)

theorem sellAfterWait_waitMs (initialPosition : Position) (waitMs : ℕ)
    (reread : Option Position) (fraction : Option ℚ) (quote : Option ℤ) :
    sellWaitMs (evaluateSellModel.sellAfterWait initialPosition waitMs
      reread fraction quote) = waitMs := by
  unfold evaluateSellModel.sellAfterWait
  dsimp only
  split <;> split <;>
    first
      | rfl
      | (cases quote <;> simp [sellWaitMs])

/-- **C7.** For a SELL whose (non-empty) position is `SENT` while
allow-sell-on-sent is false: the gate polls in 500 ms steps at most
`maxPolls = max(1, ⌈timeout·1000/500⌉)` times — so the total wait stays
below `timeout` seconds plus one poll period; when no poll within that
budget observes a `CONFIRMED` position the SELL is rejected
`POSITION_NOT_CONFIRMED` with the waited milliseconds in the result; and
when the wait ends confirmed, the waited milliseconds are still reported
in whatever result the rest of the SELL pipeline produces. -/
theorem sell_on_sent_wait (timeoutSeconds : ℚ) (p : Position)
    (obs : ℕ → Option Position) (reread : Option Position)
    (fraction : Option ℚ) (quote : Option ℤ)
    (hamt : p.amountRaw ≠ 0) (hst : p.status = PosStatus.SENT) :
    (sentWait obs timeoutSeconds).2 ≤ maxSentPolls timeoutSeconds ∧
    (0 < timeoutSeconds →
      ((maxSentPolls timeoutSeconds : ℚ) * 500 <
        timeoutSeconds * 1000 + 500)) ∧
    ((∀ j, j < maxSentPolls timeoutSeconds → ∀ q, obs j = some q →
        q.status ≠ PosStatus.CONFIRMED) →
      evaluateSellModel false timeoutSeconds (some p) obs reread fraction
          quote =
        SellDecision.reject Reason.positionNotConfirmed
          (500 * (sentWait obs timeoutSeconds).2)) ∧
    ((sentWait obs timeoutSeconds).1 = true →
      sellWaitMs (evaluateSellModel false timeoutSeconds (some p) obs
          reread fraction quote) =
        500 * (sentWait obs timeoutSeconds).2) := by
  have hgate : (if p.status = PosStatus.SENT ∧ false = false
      then some (sentWait obs timeoutSeconds) else none) =
      some (sentWait obs timeoutSeconds) := by
    rw [if_pos ⟨hst, rfl⟩]
  refine ⟨by simpa using sentWaitAux_sleeps_le obs (maxSentPolls timeoutSeconds) 0,
    ?_, ?_, ?_⟩
  · intro ht
    unfold maxSentPolls
    have h2t : (0 : ℚ) < timeoutSeconds * 1000 / 500 := by positivity
    have hceil : (1 : ℤ) ≤ ⌈timeoutSeconds * 1000 / 500⌉ :=
      Int.ceil_pos.mpr h2t
    rw [max_eq_right (by omega)]
    have hcast : ((Int.toNat ⌈timeoutSeconds * 1000 / 500⌉ : ℕ) : ℚ) =
        ((⌈timeoutSeconds * 1000 / 500⌉ : ℤ) : ℚ) := by
      exact_mod_cast congrArg (fun z : ℤ => (z : ℚ))
        (Int.toNat_of_nonneg (by omega))
    rw [hcast]
    have hlt : ((⌈timeoutSeconds * 1000 / 500⌉ : ℤ) : ℚ) <
        timeoutSeconds * 1000 / 500 + 1 := Int.ceil_lt_add_one _
    nlinarith [hlt]
  · intro hnone
    have hfalse : (sentWait obs timeoutSeconds).1 = false := by
      unfold sentWait
      exact sentWaitAux_not_confirmed obs (maxSentPolls timeoutSeconds) 0
        (fun j _ h2 q hq => hnone j (by omega) q hq)
    unfold evaluateSellModel
    dsimp only
    rw [if_neg hamt, hgate]
    rw [show sentWait obs timeoutSeconds =
      (false, (sentWait obs timeoutSeconds).2) from
      Prod.ext hfalse rfl]
  · intro htrue
    unfold evaluateSellModel
    dsimp only
    rw [if_neg hamt, hgate]
    rw [show sentWait obs timeoutSeconds =
      (true, (sentWait obs timeoutSeconds).2) from Prod.ext htrue rfl]
    exact sellAfterWait_waitMs _ _ _ _ _

theorem sell_on_sent_wait_witness :
    maxSentPolls 1 = 2 ∧
      evaluateSellModel false 1 (some ⟨100, 6, PosStatus.SENT⟩) sentObs
          none none none =
        SellDecision.reject Reason.positionNotConfirmed 1000 := by
  have h := sell_on_sent_wait 1 ⟨100, 6, PosStatus.SENT⟩ sentObs none none
    none (by decide) rfl
  have hmax : maxSentPolls 1 = 2 := by
    unfold maxSentPolls
    norm_num
    decide
  refine ⟨hmax, ?_⟩
  have hsleeps : (sentWait sentObs 1).2 = 2 := by
    unfold sentWait
    rw [hmax]
    decide
  have := h.2.2.1 (by
    intro j _hj q hq
    injection hq with hq'
    rw [← hq']
    decide)
  rw [hsleeps] at this
  exact this

/-! ## Cooldown frame effect and C10 -/

theorem getLastTradeAt_map_replace (mint : String) (now : ℤ) :
    ∀ cds : List (String × ℤ), cds.any (fun r => r.1 = mint) = true →
      getLastTradeAt (cds.map (fun r =>
        if r.1 = mint then (mint, now) else r)) mint = some now := by
  intro cds
  induction cds with
  | nil => intro h; simp at h
  | cons r cds ih =>
    intro h
    by_cases hr : r.1 = mint
    · simp [getLastTradeAt, hr]
    · have hany : cds.any (fun r => r.1 = mint) = true := by
        simpa [List.any_cons, hr] using h
      simpa [getLastTradeAt, List.find?, hr] using ih hany

theorem getLastTradeAt_append_new (mint : String) (now : ℤ) :
    ∀ cds : List (String × ℤ), cds.any (fun r => r.1 = mint) = false →
      getLastTradeAt (cds ++ [(mint, now)]) mint = some now := by
  intro cds
  induction cds with
  | nil => intro _h; simp [getLastTradeAt]
  | cons r cds ih =>
    intro h
    have hr : ¬ r.1 = mint := by
      intro hEq
      simp [List.any_cons, hEq] at h
    have hany : cds.any (fun r => r.1 = mint) = false := by
      simpa [List.any_cons, hr] using h
    simpa [getLastTradeAt, List.find?, hr] using ih hany

theorem getLastTradeAt_updateCooldown (cds : List (String × ℤ))
    (mint : String) (now : ℤ) :
    getLastTradeAt (updateCooldown cds mint now) mint = some now := by
  unfold updateCooldown
  split
  · next h => exact getLastTradeAt_map_replace mint now cds h
  · next h =>
    exact getLastTradeAt_append_new mint now cds (Bool.eq_false_iff.mpr h)

theorem sellAfterWait_reject_reasons (initialPosition : Position)
    (waitMs : ℕ) (reread : Option Position) (fraction : Option ℚ)
    (quote : Option ℤ) (r : Reason) (ms : ℕ)
    (h : evaluateSellModel.sellAfterWait initialPosition waitMs reread
      fraction quote = SellDecision.reject r ms) :
    r = Reason.noPosition ∨ r = Reason.unroutableToken := by
  unfold evaluateSellModel.sellAfterWait at h
  dsimp only at h
  split at h
  · split at h
    · injection h with h1 _
      exact Or.inl h1.symm
    · rcases quote with _ | q
      · dsimp only at h
        injection h with h1 _
        exact Or.inr h1.symm
      · dsimp only at h
        simp at h
  · split at h
    · injection h with h1 _
      exact Or.inl h1.symm
    · rcases quote with _ | q
      · dsimp only at h
        injection h with h1 _
        exact Or.inr h1.symm
      · dsimp only at h
        simp at h

theorem evaluateSellModel_reject_reasons (allow : Bool) (t : ℚ)
    (pos0 : Option Position) (obs : ℕ → Option Position)
    (reread : Option Position) (fraction : Option ℚ) (quote : Option ℤ)
    (r : Reason) (ms : ℕ)
    (h : evaluateSellModel allow t pos0 obs reread fraction quote =
      SellDecision.reject r ms) :
    r = Reason.noPosition ∨ r = Reason.positionNotConfirmed ∨
      r = Reason.unroutableToken := by
  unfold evaluateSellModel at h
  rcases pos0 with _ | p
  · dsimp only at h
    injection h with h1 _
    exact Or.inl h1.symm
  · dsimp only at h
    split at h
    · injection h with h1 _
      exact Or.inl h1.symm
    · split at h
      · injection h with h1 _
        exact Or.inr (Or.inl h1.symm)
      · rcases sellAfterWait_reject_reasons _ _ _ _ _ _ _ h with h1 | h1
        · exact Or.inl h1
        · exact Or.inr (Or.inr h1)
      · rcases sellAfterWait_reject_reasons _ _ _ _ _ _ _ h with h1 | h1
        · exact Or.inl h1
        · exact Or.inr (Or.inr h1)

/-- **C10.** Every successful execution — live (`executeSwap` confirmed
path) or simulated (`recordDryRunTrade`), SELL as well as BUY — writes
the token's cooldown timestamp to the current time; consequently a
copied SELL restarts the BUY cooldown window for that token (the
cooldown gate then rejects a BUY within `cooldown_seconds` of the SELL),
even though the cooldown check belongs to the BUY pipeline only and a
SELL is never rejected with a cooldown reason. -/
theorem cooldown_updated_on_every_success (dir : Direction) (mint : String)
    (amountRaw quoteOutAmount : ℤ) (txFee : ℚ) (now : ℤ)
    (st : TradeStores) :
    getLastTradeAt (executeSwapLiveSuccess dir mint amountRaw now
        st).cooldowns mint = some now ∧
    getLastTradeAt (recordDryRunTradeModel dir mint amountRaw
        quoteOutAmount txFee now st).cooldowns mint = some now ∧
    (∀ (cooldownSeconds : ℚ) (later : ℤ),
      ((later - now : ℤ) : ℚ) / 1000 < cooldownSeconds →
      buyCooldownGate cooldownSeconds
        (getLastTradeAt (executeSwapLiveSuccess dir mint amountRaw now
          st).cooldowns mint) later = true) ∧
    (∀ (allow : Bool) (t : ℚ) (pos0 : Option Position)
      (obs : ℕ → Option Position) (reread : Option Position)
      (fraction : Option ℚ) (quote : Option ℤ) (r : Reason) (ms : ℕ),
      evaluateSellModel allow t pos0 obs reread fraction quote =
        SellDecision.reject r ms → r ≠ Reason.cooldown) := by
  have hlive : getLastTradeAt (executeSwapLiveSuccess dir mint amountRaw
      now st).cooldowns mint = some now := by
    unfold executeSwapLiveSuccess
    cases dir <;>
      simp [addDailySpent, getLastTradeAt_updateCooldown]
  refine ⟨hlive, ?_, ?_, ?_⟩
  · unfold recordDryRunTradeModel
    cases dir <;>
      simp [addDailySpent, recordVirtualTradeModel,
        getLastTradeAt_updateCooldown]
  · intro cooldownSeconds later hlt
    rw [hlive]
    unfold buyCooldownGate
    simpa using hlt
  · intro allow t pos0 obs reread fraction quote r ms h hr
    subst hr
    rcases evaluateSellModel_reject_reasons allow t pos0 obs reread
      fraction quote _ ms h with h1 | h1 | h1 <;> exact Reason.noConfusion h1

/-- Witness for C10: a simulated copied SELL of `mintM` at time 1000
stamps the cooldown, and a BUY of the same token 1 s later (cooldown
60 s) is rejected by the cooldown gate. -/
theorem cooldown_updated_on_every_success_witness :
    getLastTradeAt (recordDryRunTradeModel Direction.SELL "mintM" 500000
        700000000 (1/1000) 1000 ⟨0, [], [], 5⟩).cooldowns "mintM" =
      some 1000 ∧
    buyCooldownGate 60
      (getLastTradeAt (executeSwapLiveSuccess Direction.SELL "mintM"
        500000 1000 ⟨0, [], [], 5⟩).cooldowns "mintM") 2000 = true := by
  have h := cooldown_updated_on_every_success Direction.SELL "mintM"
    500000 700000000 (1/1000) 1000 ⟨0, [], [], 5⟩
  exact ⟨h.2.1, h.2.2.1 60 2000 (by norm_num)⟩

/-! ## Circuit breaker and C8 -/

theorem openCircuit_isOpen (r : OpenReason) (now : ℤ) (s : CBState) :
    (openCircuit r now s).isOpen = true := by
  unfold openCircuit
  split
  · next h => exact h
  · rfl

theorem openCircuit_events (r : OpenReason) (now : ℤ) (s : CBState) :
    (openCircuit r now s).events = s.events := by
  unfold openCircuit
  split <;> rfl

theorem checkThresholds_events (cfg : CBConfig) (now : ℤ) (s : CBState) :
    (checkThresholds cfg now s).events = s.events := by
  unfold checkThresholds
  dsimp only
  repeat' split
  all_goals first
    | rfl
    | apply openCircuit_events

theorem checkThresholds_of_open {cfg : CBConfig} {now : ℤ} {s : CBState}
    (h : s.isOpen = true) : checkThresholds cfg now s = s := by
  unfold checkThresholds
  rw [if_pos h]

theorem checkThresholds_isOpen_iff (cfg : CBConfig) (now : ℤ) (s : CBState)
    (h : s.isOpen = false) :
    (checkThresholds cfg now s).isOpen = true ↔
      amendedBreakerOpens cfg (cbRecent cfg now s.events) := by
  unfold checkThresholds amendedBreakerOpens
  rw [if_neg (by simp [h])]
  dsimp only
  split
  · next h3 =>
    exact iff_of_false (by simp [h]) (fun hc => by omega)
  · next h3 =>
    have h3' : 3 ≤ (cbRecent cfg now s.events).length := by omega
    split
    · next hf =>
      exact iff_of_true (openCircuit_isOpen _ _ _) ⟨h3', Or.inl hf⟩
    · next hf =>
      split
      · next hnp =>
        exact iff_of_true (openCircuit_isOpen _ _ _)
          ⟨h3', Or.inr (Or.inl hnp)⟩
      · next hnp =>
        split
        · next hlt =>
          split
          · next hlen =>
            split
            · next hp =>
              exact iff_of_true (openCircuit_isOpen _ _ _)
                ⟨h3', Or.inr (Or.inr ⟨hlt, hlen, hp⟩)⟩
            · next hp =>
              refine iff_of_false (by simp [h]) ?_
              rintro ⟨_, hc | hc | hc⟩
              exacts [hf hc, hnp hc, hp hc.2.2]
          · next hlen =>
            refine iff_of_false (by simp [h]) ?_
            rintro ⟨_, hc | hc | hc⟩
            exacts [hf hc, hnp hc, hlen hc.2.1]
        · next hlt =>
          refine iff_of_false (by simp [h]) ?_
          rintro ⟨_, hc | hc | hc⟩
          exacts [hf hc, hnp hc, hlt hc.1]

theorem recordOutcomeCB_events (cfg : CBConfig) (now : ℤ)
    (o : BreakerOutcome) (lat : ℕ) (st : CBState) :
    (recordOutcomeCB cfg now o lat st).events =
      (st.events ++ [(⟨now, o, lat⟩ : TradeEvent)]).dropWhile
        (fun e => e.ts < now - (cfg.failWindowMinutes : ℤ) * 2 * 60000) := by
  unfold recordOutcomeCB
  exact checkThresholds_events cfg now _

/-- **C8 (amended).** After a recorded outcome, a closed breaker is open
exactly when, over the events inside the window (after the ring prune):
at least 3 samples are present and the FAILED rate exceeds the
threshold, or the NO_POSITION count reaches a positive spike threshold,
or — when the latency threshold is positive — the P99 of at least 5
COPIED latencies exceeds it.  An open breaker is untouched by further
outcomes (flag, opened-at and reason unchanged); an explicit reset
closes it; and on a query, an open breaker reports closed (resetting
itself) exactly when auto-reset minutes are positive and at least that
many minutes have elapsed since it opened. -/
theorem breaker_open_conditions (cfg : CBConfig) (now : ℤ)
    (o : BreakerOutcome) (lat : ℕ) (st : CBState) :
    (st.isOpen = false →
      ((recordOutcomeCB cfg now o lat st).isOpen = true ↔
        amendedBreakerOpens cfg
          (cbRecent cfg now (recordOutcomeCB cfg now o lat st).events))) ∧
    (st.isOpen = true →
      recordOutcomeCB cfg now o lat st =
        { st with
          events := ((st.events ++ [(⟨now, o, lat⟩ : TradeEvent)]).dropWhile
            (fun e => e.ts <
              now - (cfg.failWindowMinutes : ℤ) * 2 * 60000)) }) ∧
    (∀ s : CBState, s.isOpen = true →
      (resetCircuitModel s).isOpen = false) ∧
    (st.isOpen = true → ∀ t : ℤ, st.openedAt = some t →
      ((isCircuitOpenModel cfg now st).1 = false ↔
        (0 < cfg.autoResetMinutes ∧
          (cfg.autoResetMinutes : ℚ) ≤ ((now - t : ℤ) : ℚ) / 60000))) := by
  refine ⟨?_, ?_, ?_, ?_⟩
  · intro hcl
    rw [recordOutcomeCB_events]
    unfold recordOutcomeCB
    dsimp only
    exact checkThresholds_isOpen_iff cfg now _ hcl
  · intro hop
    unfold recordOutcomeCB
    dsimp only
    exact checkThresholds_of_open hop
  · intro s hs
    unfold resetCircuitModel
    rw [if_pos hs]
  · intro hop t ht
    unfold isCircuitOpenModel
    rw [if_neg (by simp [hop]), ht]
    dsimp only
    split
    · next hc => exact iff_of_true rfl hc
    · next hc => exact iff_of_false (by simp) hc

/-- **C8 counterexample.** With latency threshold 0, after five COPIED
outcomes of 1000 ms the claim's condition (P99 = 1000 exceeds the
threshold 0 with 5 COPIED samples, 5 ≥ 3 samples in the window) holds,
yet the breaker stays closed — the code skips the latency check entirely
when the threshold is not positive. -/
theorem breaker_latency_clause_counterexample :
    cbLatencyDemoState.isOpen = false ∧
      specBreakerOpens cbLatencyDemoConfig
        (cbRecent cbLatencyDemoConfig 4 cbLatencyDemoState.events) := by
  constructor
  · norm_num +decide [cbLatencyDemoState, cbLatencyDemoConfig,
      recordOutcomeCB, checkThresholds, cbRecent, openCircuit,
      sortAsc, insertSorted, p99Of, List.dropWhile, List.filter]
  · norm_num +decide [specBreakerOpens, cbLatencyDemoState,
      cbLatencyDemoConfig, recordOutcomeCB, checkThresholds, cbRecent,
      openCircuit, sortAsc, insertSorted, p99Of, List.dropWhile,
      List.filter]

/-- Witness for C8 at the spec's fail-rate scenario: after two FAILED
outcomes the breaker is closed; recording a third FAILED outcome opens
it (3 samples, fail rate 100 % > 30 %). -/
theorem breaker_open_conditions_witness :
    cbFailDemoState.isOpen = false ∧
      (recordOutcomeCB cbFailDemoConfig 2 BreakerOutcome.FAILED 50
        cbFailDemoState).isOpen = true := by
  have hcl : cbFailDemoState.isOpen = false := by
    norm_num +decide [cbFailDemoState, cbFailDemoConfig, recordOutcomeCB,
      checkThresholds, cbRecent, openCircuit, List.dropWhile, List.filter]
  have h := breaker_open_conditions cbFailDemoConfig 2 BreakerOutcome.FAILED
    50 cbFailDemoState
  refine ⟨hcl, (h.1 hcl).mpr ?_⟩
  norm_num +decide [amendedBreakerOpens, cbFailDemoState, cbFailDemoConfig,
    recordOutcomeCB, checkThresholds, cbRecent, openCircuit, sortAsc,
    insertSorted, p99Of, List.dropWhile, List.filter]

/-! ## Push endpoint and C9 -/

/-- **C9 counterexample.** The 121st request of a rate-limiter window is
answered 429 by the middleware — it never reaches the route handler and
does not receive the 200 `ok` reply the claim promises for every
request. -/
theorem webhook_rate_limited_counterexample :
    (webhookPipeline 120 ["sig1"]).2 =
        [WebhookStep.respond 429 RespBody.tooManyRequests] ∧
      ∀ step ∈ (webhookPipeline 120 ["sig1"]).2,
        step ≠ WebhookStep.respond 200 RespBody.okTrue := by
  constructor
  · decide
  · decide

/-- **C9 (amended).** Every POST to the push endpoint that the
fixed-window rate limiter admits (at most 120 requests per window) is
answered 200 `{ok:true}` first, with the payload processed only after
the reply; a request beyond the window limit is answered 429. -/
theorem webhook_replies_ok_then_processes (reqCount : ℕ)
    (payload : List String) (h : reqCount + 1 ≤ 120) :
    (webhookPipeline reqCount payload).2 =
      WebhookStep.respond 200 RespBody.okTrue ::
        payload.map WebhookStep.processTx ∧
    (webhookPipeline reqCount payload).1 = reqCount + 1 := by
  unfold webhookPipeline
  rw [if_neg (by omega)]
  exact ⟨rfl, rfl⟩

theorem webhook_replies_ok_then_processes_witness :
    (webhookPipeline 0 ["sigA", "sigB"]).2 =
      [WebhookStep.respond 200 RespBody.okTrue,
       WebhookStep.processTx "sigA", WebhookStep.processTx "sigB"] := by
  have h := webhook_replies_ok_then_processes 0 ["sigA", "sigB"]
    (by norm_num)
  rw [h.1]
  rfl

end CopyBot
